import Mathlib

/-!
Verification development for the terminal dashboard's ledger
ingestion/aggregation engine and navigation state machine
(`src/main.rs`).

Strings are modelled as lists of characters (`Str`); Rust `str`
operations used by the source (`trim`, `split`, `lines`, `contains`,
`starts_with`, `ends_with`) are re-implemented below on that
representation.  Monetary amounts (`f64` in the source) are modelled as
exact rationals `ℚ`; the amount grammar accepted after scrubbing only
contains digits, `.` and `-`, for which rational semantics coincides
with the decimal value the Rust parser targets.  File-system and
terminal effects are abstracted: file contents, directory listings and
external-process results are parameters of the corresponding functions.
-/

abbrev Str := List Char

/-- Rust `char::is_whitespace`, restricted to the whitespace characters
relevant here (space, tab, CR, LF) as in `Char.isWhitespace`. -/
def isWs (c : Char) : Bool := c.isWhitespace

/-- Rust `str::trim_start`: drop leading whitespace. -/
def trimL (s : Str) : Str := s.dropWhile isWs

/-- Rust `str::trim_end`: drop trailing whitespace. -/
def trimR (s : Str) : Str := (s.reverse.dropWhile isWs).reverse

/-- Rust `str::trim`. -/
def trim (s : Str) : Str := trimR (trimL s)

/-- Rust `str::split(sep)`: split on a separator character; always
returns at least one (possibly empty) segment. -/
def splitOnChar (sep : Char) : Str → List Str
  | [] => [[]]
  | c :: rest =>
    let r := splitOnChar sep rest
    if c = sep then [] :: r
    else
      match r with
      | [] => [[c]]
      | h :: t => (c :: h) :: t

/-- Join segments with a separator character (inverse of
`splitOnChar` on separator-free segments). -/
def joinSep (sep : Char) : List Str → Str
  | [] => []
  | [p] => p
  | p :: ps => p ++ sep :: joinSep sep ps

/-- Rust `str::lines()`: split on `'\n'`, drop a final empty segment
produced by a trailing newline, and strip one trailing `'\r'` from each
line. -/
def rustLines (s : Str) : List Str :=
  if s = [] then []
  else
    let parts := splitOnChar '\n' s
    let parts := if parts.getLast? = some [] then parts.dropLast else parts
    parts.map (fun l => if l.getLast? = some '\r' then l.dropLast else l)

/-- The per-line body of `parse_table`: a line is kept iff, after
trimming, it starts and ends with `'|'`; it is split on `'|'`, each
cell trimmed, every cell that is empty after trimming dropped, and the
row accepted iff at least `min_cols` cells remain. -/
def tableLine (min_cols : Nat) (line : Str) : Option (List Str) :=
  let t := trim line
  if t.head? = some '|' ∧ t.getLast? = some '|' then
    let cells := ((splitOnChar '|' t).map trim).filter (fun s => s ≠ [])
    if min_cols ≤ cells.length then some cells else none
  else none

/-- `parse_table` from `src/main.rs`. -/
def parse_table (content : Str) (min_cols : Nat) : List (List Str) :=
  (rustLines content).filterMap (tableLine min_cols)

/-- A markdown pipe-table line built from a list of cells:
`|c₁|c₂|...|cₙ|`. -/
def mkLine (row : List Str) : Str :=
  '|' :: (joinSep '|' row ++ ['|'])

/-- Modelled from the spec's words for comparison with `parse_table`:
"empty cells produced by leading/trailing pipe delimiters discarded",
i.e. only the first and last split segments are dropped when empty,
interior empty cells are kept. -/
def parse_table_spec (content : Str) (min_cols : Nat) : List (List Str) :=
  (rustLines content).filterMap (fun line =>
    let t := trim line
    if t.head? = some '|' ∧ t.getLast? = some '|' then
      let raw := (splitOnChar '|' t).map trim
      let raw := if raw.head? = some [] then raw.tail else raw
      let cells := if raw.getLast? = some [] then raw.dropLast else raw
      if min_cols ≤ cells.length then some cells else none
    else none)

/-- `SCROLL_WINDOW` from `src/main.rs`. -/
def SCROLL_WINDOW : Nat := 10

/-- `scroll_up` from `src/main.rs`. -/
def scroll_up (scroll : Nat) : Nat :=
  if scroll > 0 then scroll - 1 else scroll

/-- `scroll_down` from `src/main.rs`. -/
def scroll_down (scroll : Nat) (len : Nat) : Nat :=
  if scroll + SCROLL_WINDOW < len then scroll + 1 else scroll

/-- Numeric value of a digit string. -/
def digitsVal (l : Str) : Nat :=
  l.foldl (fun a c => 10 * a + (c.toNat - '0'.toNat)) 0

/-- Value of a fractional digit string (the part after the dot). -/
def fracVal (l : Str) : ℚ := (digitsVal l : ℚ) / (10 : ℚ) ^ l.length

/-- Rust `f64::from_str` on strings made of digits and at most one dot:
`Digits`, `Digits '.' Digits?`, or `'.' Digits`; anything else fails. -/
def parseUnsigned (s : Str) : Option ℚ :=
  let intPart := s.takeWhile Char.isDigit
  let rest := s.dropWhile Char.isDigit
  match rest with
  | [] => if intPart = [] then none else some (digitsVal intPart)
  | '.' :: frac =>
    if frac.all Char.isDigit ∧ (intPart ≠ [] ∨ frac ≠ []) then
      some ((digitsVal intPart : ℚ) + fracVal frac)
    else none
  | _ => none

/-- Rust `f64::from_str` restricted to scrub output (digits, `.`, `-`):
an optional single leading minus followed by an unsigned decimal. -/
def parseDecimal (s : Str) : Option ℚ :=
  if s.head? = some '-' then (parseUnsigned s.tail).map Neg.neg
  else parseUnsigned s

/-- `parse_amount` from `src/main.rs`: keep only ASCII digits, `.` and
`-`, fail on an empty scrub result, otherwise parse as a number. -/
def parse_amount (raw : Str) : Option ℚ :=
  let buf := raw.filter (fun c => c.isDigit || c = '.' || c = '-')
  if buf = [] then none else parseDecimal buf

/-- Decimal rendering of a natural number, as Rust `Display`. -/
def natStr (n : Nat) : Str := Nat.toDigits 10 n

/-- Decimal rendering of an integer, as Rust `Display`. -/
def intStr (i : ℤ) : Str :=
  if i < 0 then '-' :: natStr i.natAbs else natStr i.natAbs

/-- Floor of a non-negative rational, computed on its reduced
numerator and denominator. -/
def ratFloorNat (q : ℚ) : Nat := q.num.toNat / q.den

/-- Rust `format!("{:.2}", x)`: fixed two decimal places, rounding to
the nearest hundredth. -/
def fmt2 (q : ℚ) : Str :=
  let sign : Str := if q < 0 then ['-'] else []
  let n : Nat := ratFloorNat (|q| * 100 + 1 / 2)
  sign ++ natStr (n / 100) ++ '.' ::
    (if n % 100 < 10 then ['0'] else []) ++ natStr (n % 100)

/-- `BillEntry` from `src/main.rs`. -/
structure BillEntry where
  partner : Str
  product : Str
  amount : ℚ
deriving DecidableEq

/-- `BillAggregate` from `src/main.rs`. -/
structure BillAggregate where
  incomes : List BillEntry
  expenses : List BillEntry
deriving DecidableEq

/-- `BillAggregate::from_entries`. -/
def BillAggregate.from_entries (expenses incomes : List BillEntry) : BillAggregate :=
  { incomes := incomes, expenses := expenses }

/-- `BillAggregate::extend`: append the other aggregate's entries. -/
def BillAggregate.extend (a other : BillAggregate) : BillAggregate :=
  { incomes := a.incomes ++ other.incomes,
    expenses := a.expenses ++ other.expenses }

/-- `BillAggregate::is_empty`. -/
def BillAggregate.is_empty (a : BillAggregate) : Bool :=
  a.incomes.isEmpty && a.expenses.isEmpty

/-- `BillAggregate::total_income`. -/
def BillAggregate.total_income (a : BillAggregate) : ℚ :=
  (a.incomes.map BillEntry.amount).sum

/-- `BillAggregate::total_expense`. -/
def BillAggregate.total_expense (a : BillAggregate) : ℚ :=
  (a.expenses.map BillEntry.amount).sum

/-- `BillAggregate::net`. -/
def BillAggregate.net (a : BillAggregate) : ℚ :=
  a.total_income - a.total_expense

/-- One `| partner | product | amount |` markdown row written by
`to_markdown`. -/
def entryLine (e : BillEntry) : Str :=
  "| ".data ++ e.partner ++ " | ".data ++ e.product ++ " | ".data ++
    fmt2 e.amount ++ " |\n".data

/-- The final net line of `to_markdown`:
`{净收入|净支出}：{:.2} 元` with the absolute net value. -/
def mdNetLine (a : BillAggregate) : Str :=
  (if 0 ≤ a.net then "净收入".data else "净支出".data) ++
    "：".data ++ fmt2 |a.net| ++ " 元\n".data

/-- `BillAggregate::to_markdown` from `src/main.rs`, line by line. -/
def BillAggregate.to_markdown (a : BillAggregate) : Str :=
  "# 账单分析\n\n".data ++
  "## 支出\n".data ++
  (if a.expenses.isEmpty then "无支出记录。\n".data
   else
     "| 交易对方 | 商品 | 金额(元) |\n|----------|------|----------|\n".data ++
     (a.expenses.map entryLine).flatten ++
     "\n总支出：".data ++ fmt2 a.total_expense ++ " 元\n\n".data) ++
  "## 收入\n".data ++
  (if a.incomes.isEmpty then "无收入记录。\n".data
   else
     "| 交易对方 | 商品 | 金额(元) |\n|----------|------|----------|\n".data ++
     (a.incomes.map entryLine).flatten ++
     "\n总收入：".data ++ fmt2 a.total_income ++ " 元\n\n".data) ++
  mdNetLine a

/-- `BillState` from `src/main.rs`.  The `HashSet<PathBuf>` of
processed paths is modelled as a duplicate-free list with set-insert;
the watched directory itself is irrelevant to the modelled logic. -/
structure BillState where
  files : List Str
  processed : List Str
  aggregate : BillAggregate
deriving DecidableEq

/-- `HashSet::insert`: add if not already present. -/
def setInsert (p : Str) (s : List Str) : List Str :=
  if p ∈ s then s else p :: s

/-- `BillState::pending_count`. -/
def BillState.pending_count (st : BillState) : Nat :=
  (st.files.filter (fun p => decide (p ∉ st.processed))).length

/-- The loop body of `BillState::analyze_pending`: walk the catalog in
order, skip already-processed paths, fold successful reports into the
aggregate, abort on the first failure keeping the partial state.
`analyze` abstracts `analyze_bill_file` (a file-system read). -/
def analyzeLoop (analyze : Str → Except Str BillAggregate) :
    List Str → BillState → Nat → Except Str Nat × BillState
  | [], st, success =>
    (if success = 0 then .error "没有需要分析的账单".data else .ok success, st)
  | p :: rest, st, success =>
    if p ∈ st.processed then analyzeLoop analyze rest st success
    else
      match analyze p with
      | .ok report =>
        analyzeLoop analyze rest
          { st with processed := setInsert p st.processed,
                    aggregate := st.aggregate.extend report }
          (success + 1)
      | .error _ => (.error "分析失败".data, st)

/-- `BillState::analyze_pending` from `src/main.rs`. -/
def analyze_pending (analyze : Str → Except Str BillAggregate)
    (st : BillState) : Except Str Nat × BillState :=
  analyzeLoop analyze st.files st 0

/-- `BillState::export_reports`, with the file system abstracted to the
observable effects: `(files written, directory created, document)`. -/
def export_reports (st : BillState) : Nat × Bool × Option Str :=
  if st.aggregate.is_empty then (0, false, none)
  else (1, true, some st.aggregate.to_markdown)

/-- `calamine::DataType` restricted to the constructors the source
distinguishes; every other variant behaves like `other`. -/
inductive DataType
  | s (v : Str)
  | f (v : ℚ)
  | i (v : ℤ)
  | b (v : Bool)
  | empty
  | other
deriving DecidableEq

/-- `cell_to_string` from `src/main.rs`. -/
def cell_to_string : DataType → Str
  | .s v => v
  | .f v => fmt2 v
  | .i v => intStr v
  | .b v => (toString v).data
  | .empty => []
  | .other => []

/-- Whether a cell is `DataType::Empty` (the blank-row test). -/
def isEmptyCell : DataType → Bool
  | .empty => true
  | _ => false

/-- The per-row body of the `parse_wechat_bill` transaction loop:
`acc = (expenses, incomes)` accumulated so far. -/
def wechatStep (acc : List BillEntry × List BillEntry)
    (row : List DataType) : List BillEntry × List BillEntry :=
  if row.all isEmptyCell then acc
  else
    let category := cell_to_string (row.getD 4 .empty)
    let partner := cell_to_string (row.getD 2 .empty)
    let product := cell_to_string (row.getD 3 .empty)
    let amount_str := cell_to_string (row.getD 5 .empty)
    if category = [] ∨ amount_str = [] then acc
    else
      match parse_amount amount_str with
      | none => acc
      | some amount =>
        let entry : BillEntry := ⟨partner, product, amount⟩
        if '支' ∈ category then (acc.1 ++ [entry], acc.2)
        else if '收' ∈ category then (acc.1, acc.2 ++ [entry])
        else acc

/-- Header search of `parse_wechat_bill`: first row whose first cell
stringifies and trims to the transaction-time label. -/
def findHeaderIdx (range : List (List DataType)) : Option Nat :=
  range.findIdx? (fun row =>
    decide (trim (cell_to_string (row.headD .empty)) = "交易时间".data))

/-- `parse_wechat_bill` from `src/main.rs`, over the cell range of the
first worksheet (workbook opening is abstracted; its failures are
earlier distinct errors). -/
def parse_wechat_bill (range : List (List DataType)) :
    Except Str BillAggregate :=
  match findHeaderIdx range with
  | none => .error "未找到账单列表".data
  | some idx =>
    let acc := (range.drop (idx + 1)).foldl wechatStep ([], [])
    .ok (BillAggregate.from_entries acc.1 acc.2)

/-- The per-record body of the `parse_alipay_bill` loop over CSV
records. -/
def alipayStep (acc : List BillEntry × List BillEntry)
    (record : List Str) : List BillEntry × List BillEntry :=
  if record.length < 7 then acc
  else
    let flow := trim (record.getD 5 [])
    let amount_text := trim (record.getD 6 [])
    if flow = [] ∨ amount_text = [] then acc
    else
      match parse_amount amount_text with
      | none => acc
      | some amount =>
        let entry : BillEntry :=
          ⟨trim (record.getD 2 []), trim (record.getD 4 []), amount⟩
        if '支' ∈ flow then (acc.1 ++ [entry], acc.2)
        else if '收' ∈ flow then (acc.1, acc.2 ++ [entry])
        else acc

/-- `parse_alipay_bill` from `src/main.rs`, over the CSV records that
follow the located transaction-table header (BOM stripping, header
search and CSV decoding are abstracted into the record list). -/
def parse_alipay_records (records : List (List Str)) : BillAggregate :=
  let acc := records.foldl alipayStep ([], [])
  BillAggregate.from_entries acc.1 acc.2

/-- `AppState` from `src/main.rs`. -/
inductive AppState
  | MainMenu
  | TodoView
  | CyberView
  | BillView
deriving DecidableEq

/-- The key codes `run_app` dispatches on; every other key behaves as
`other`. -/
inductive KeyCode
  | charQ | esc | up | down | charK | charJ | enter
  | charW | charE | charR | charA | charO | other
deriving DecidableEq

/-- The mutable state of `run_app` that the key dispatch touches
(rendering-only data such as the weather cards is omitted). -/
structure App where
  selected : Nat
  last_msg : Option Str
  state : AppState
  force_redraw : Bool
  todo : List (List Str)
  todo_scroll : Nat
  cyber : List (List Str)
  cyber_scroll : Nat
  bill : BillState
deriving DecidableEq

/-- Outcomes of the external collaborators `run_app` calls, abstracted
from the file system, the editor process and the interactive prompt. -/
structure Env where
  nvim_ok : Bool
  read_todo : Except Unit Str
  read_cyber : Except Unit Str
  refresh_files : Except Str (List Str)
  analyze_file : Str → Except Str BillAggregate
  prompt_dir : Except Str Str

/-- `load_table` from `src/main.rs`: returns the new `(rows, scroll)`;
on a loader error the rows are cleared; scroll always resets to 0. -/
def load_table (loader : Except Unit Str) : List (List Str) × Nat :=
  match loader with
  | .ok s => (parse_table s 1, 0)
  | .error _ => ([], 0)

/-- `edit_table` from `src/main.rs`: on editor success reload through
`load_table`; on editor failure clear the rows and reset scroll.  The
caller additionally sets `force_redraw`. -/
def edit_table (nvim_ok : Bool) (loader : Except Unit Str) :
    List (List Str) × Nat :=
  if nvim_ok then load_table loader else ([], 0)

/-- `BillState::refresh_files`: on success replace the file catalog
with the (sorted) directory listing; on an I/O error leave the state
unchanged and report the error. -/
def refresh_files (r : Except Str (List Str)) (st : BillState) :
    Except Str BillState :=
  match r with
  | .ok files => .ok { st with files := files }
  | .error e => .error e

/-- The net-summary text used by the bill view status messages
(`label：{:.2} 元`). -/
def netText (a : BillAggregate) : Str :=
  (if 0 ≤ a.net then "净收入".data else "净支出".data) ++
    "：".data ++ fmt2 |a.net| ++ " 元".data

/-- One key-press dispatch step of `run_app` from `src/main.rs`
(`none` means the loop exits).  The `w` key only spawns the detached
weather fetch and changes none of the modelled state. -/
def step (env : Env) (key : KeyCode) (app : App) : Option App :=
  match app.state with
  | .MainMenu =>
    match key with
    | .charQ | .esc => none
    | .up | .charK =>
      some { app with
        selected := if app.selected = 0 then 2 else app.selected - 1,
        last_msg := none }
    | .down | .charJ =>
      some { app with selected := (app.selected + 1) % 3, last_msg := none }
    | .enter =>
      -- items = [Todo, Bill, Cyber]; selected is kept within 0..2
      match app.selected with
      | 0 =>
        let r := load_table env.read_todo
        some { app with
          todo := r.1, todo_scroll := r.2,
          state := .TodoView, last_msg := none }
      | 1 =>
        let bill :=
          match refresh_files env.refresh_files app.bill with
          | .ok st => st
          | .error _ => app.bill
        some { app with
          bill := bill, state := .BillView,
          force_redraw := true, last_msg := none }
      | 2 =>
        let r := load_table env.read_cyber
        some { app with
          cyber := r.1, cyber_scroll := r.2,
          state := .CyberView, last_msg := none }
      | _ => some app
    | _ => some app
  | .TodoView =>
    match key with
    | .charQ => some { app with state := .MainMenu, todo_scroll := 0 }
    | .charE =>
      let r := edit_table env.nvim_ok env.read_todo
      some { app with todo := r.1, todo_scroll := r.2, force_redraw := true }
    | .charR =>
      let r := load_table env.read_todo
      some { app with todo := r.1, todo_scroll := r.2 }
    | .charK => some { app with todo_scroll := scroll_up app.todo_scroll }
    | .charJ =>
      some { app with todo_scroll := scroll_down app.todo_scroll app.todo.length }
    | _ => some app
  | .CyberView =>
    match key with
    | .charQ => some { app with state := .MainMenu, cyber_scroll := 0 }
    | .charE =>
      let r := edit_table env.nvim_ok env.read_cyber
      some { app with cyber := r.1, cyber_scroll := r.2, force_redraw := true }
    | .charR =>
      let r := load_table env.read_cyber
      some { app with cyber := r.1, cyber_scroll := r.2 }
    | .charK => some { app with cyber_scroll := scroll_up app.cyber_scroll }
    | .charJ =>
      some { app with cyber_scroll := scroll_down app.cyber_scroll app.cyber.length }
    | _ => some app
  | .BillView =>
    match key with
    | .charQ => some { app with state := .MainMenu, force_redraw := true }
    | .charR =>
      match refresh_files env.refresh_files app.bill with
      | .ok st =>
        some { app with
          bill := st,
          last_msg := some ("待分析账单：".data ++ natStr st.pending_count),
          force_redraw := true }
      | .error e =>
        some { app with
          last_msg := some ("刷新失败: ".data ++ e),
          force_redraw := true }
    | .charA =>
      let r := analyze_pending env.analyze_file app.bill
      match r.1 with
      | .ok n =>
        let net :=
          if r.2.aggregate.is_empty then "暂无统计数据".data
          else netText r.2.aggregate
        some { app with
          bill := r.2,
          last_msg := some ("完成 ".data ++ natStr n ++ " 份账单分析 | ".data ++ net),
          force_redraw := true }
      | .error e =>
        some { app with bill := r.2, last_msg := some e, force_redraw := true }
    | .charO =>
      if app.bill.aggregate.is_empty then
        some { app with
          last_msg := some "请先按a完成分析".data,
          force_redraw := true }
      else
        match env.prompt_dir with
        | .ok dir =>
          let count := (export_reports app.bill).1
          some { app with
            last_msg := some ("已导出 ".data ++ natStr count ++ " 份报表至 ".data ++ dir),
            force_redraw := true }
        | .error e =>
          some { app with
            last_msg := some ("输入导出路径失败: ".data ++ e),
            force_redraw := true }
    | _ => some app

deriving instance DecidableEq for Except

set_option maxRecDepth 10000

/-- Concrete aggregate with one income entry of 50.00 and one expense
entry of 20.00, used by the examples. -/
def witAgg : BillAggregate :=
  ⟨[⟨"甲".data, "工资".data, 50⟩], [⟨"乙".data, "咖啡".data, 20⟩]⟩

/-- A spreadsheet range with a header row and one expense row whose
amount cell reads `-5.00` (e.g. a refund), used to probe signs. -/
def demoRangeNeg : List (List DataType) :=
  [[DataType.s "交易时间".data],
   [DataType.empty, DataType.empty, DataType.s "甲".data,
    DataType.s "乙".data, DataType.s "支出".data, DataType.s "-5.00".data]]

/-- A spreadsheet range with a header row and one expense row whose
amount cell reads `12.50`. -/
def demoRangePos : List (List DataType) :=
  [[DataType.s "交易时间".data],
   [DataType.empty, DataType.empty, DataType.s "店".data,
    DataType.s "货".data, DataType.s "支出".data, DataType.s "12.50".data]]

/-- A bill state holding `witAgg`, used by the export example. -/
def stEx : BillState := ⟨[], [], witAgg⟩

/-- Environment where the table reload fails after a successful
external edit, and the catalog refresh fails. -/
def env0 : Env :=
  { nvim_ok := true, read_todo := .error (), read_cyber := .error (),
    refresh_files := .error "e".data,
    analyze_file := fun _ => .error "x".data, prompt_dir := .error [] }

/-- Application state sitting in the todo table view with one loaded
row. -/
def app0 : App :=
  { selected := 0, last_msg := none, state := .TodoView,
    force_redraw := false, todo := [["a".data]], todo_scroll := 0,
    cyber := [], cyber_scroll := 0, bill := ⟨[], [], ⟨[], []⟩⟩ }

theorem parseUnsigned_nonneg {s : Str} {q : ℚ}
    (h : parseUnsigned s = some q) : 0 ≤ q := by
  unfold parseUnsigned at h
  dsimp only at h
  split at h
  · split at h
    · exact absurd h (by simp)
    · obtain ⟨rfl⟩ := Option.some.inj h
      positivity
  · rename_i rest frac heq
    split at h
    · obtain ⟨rfl⟩ := Option.some.inj h
      have h0 : (0 : ℚ) ≤ fracVal frac := by unfold fracVal; positivity
      exact add_nonneg (by positivity) h0
    · exact absurd h (by simp)
  · exact absurd h (by simp)

theorem parse_amount_nonneg {raw : Str} {q : ℚ}
    (hm : '-' ∉ raw) (h : parse_amount raw = some q) : 0 ≤ q := by
  unfold parse_amount at h
  dsimp only at h
  split at h
  · exact absurd h (by simp)
  · have hbuf : '-' ∉ raw.filter (fun c => c.isDigit || c = '.' || c = '-') :=
      fun hc => hm (List.mem_of_mem_filter hc)
    unfold parseDecimal at h
    split at h
    · rename_i hhead
      exact absurd (List.mem_of_mem_head? hhead) hbuf
    · exact parseUnsigned_nonneg h

theorem parse_amount_ne_nil {raw : Str} {q : ℚ}
    (h : parse_amount raw = some q) : raw ≠ [] := by
  rintro rfl
  simp [parse_amount] at h

/-- C6: `scroll_down` increments the offset by exactly 1 when
`offset + 10 < total_rows` and leaves it unchanged otherwise, so it is
monotonic, bounded by `max 0 (total_rows - 10)` whenever it moves or
starts within that bound, and idempotent once at the ceiling;
`scroll_up` decrements by 1 with a floor at 0, so `scroll_up 0 = 0`. -/
theorem scroll_window_spec (offset total : Nat) :
    (offset + 10 < total → scroll_down offset total = offset + 1) ∧
    (¬ offset + 10 < total → scroll_down offset total = offset) ∧
    offset ≤ scroll_down offset total ∧
    (offset + 10 < total → scroll_down offset total ≤ max 0 (total - 10)) ∧
    (offset ≤ max 0 (total - 10) → scroll_down offset total ≤ max 0 (total - 10)) ∧
    (¬ offset + 10 < total →
      scroll_down (scroll_down offset total) total = scroll_down offset total) ∧
    (0 < offset → scroll_up offset = offset - 1) ∧
    scroll_up 0 = 0 := by
  unfold scroll_down scroll_up SCROLL_WINDOW
  simp only [Nat.zero_max]
  refine ⟨?_, ?_, ?_, ?_, ?_, ?_, ?_, ?_⟩ <;>
    (intros; (repeat' split) <;> omega)

/-- Witness for C6 at `offset = 0`, `total = 20`. -/
theorem scroll_window_spec_witness :
    scroll_down 0 20 = 0 + 1 ∧ scroll_down 19 20 = 19 ∧ scroll_up 0 = 0 :=
  ⟨(scroll_window_spec 0 20).1 (by decide),
   (scroll_window_spec 19 20).2.1 (by decide),
   (scroll_window_spec 0 20).2.2.2.2.2.2.2⟩

/-- C1: over a catalog holding a single file that parses successfully,
the first `analyze_pending` call ingests it; the second call leaves the
aggregate and the processed set unchanged and reports the distinct
"nothing pending" condition, which differs from the parse-error
report. -/
theorem ingest_idempotent_single
    (analyze : Str → Except Str BillAggregate) (p : Str)
    (A r : BillAggregate) (h : analyze p = .ok r) :
    analyze_pending analyze ⟨[p], [], A⟩ =
      (.ok 1, ⟨[p], [p], A.extend r⟩) ∧
    analyze_pending analyze ⟨[p], [p], A.extend r⟩ =
      (.error "没有需要分析的账单".data, ⟨[p], [p], A.extend r⟩) ∧
    ("没有需要分析的账单".data : Str) ≠ "分析失败".data := by
  refine ⟨?_, ?_, by decide⟩
  · simp [analyze_pending, analyzeLoop, h, setInsert]
  · simp [analyze_pending, analyzeLoop]

/-- Witness for C1 at a concrete one-file catalog. -/
theorem ingest_idempotent_single_witness :
    analyze_pending (fun _ => .ok witAgg) ⟨["a.xlsx".data], [], ⟨[], []⟩⟩ =
      (.ok 1, ⟨["a.xlsx".data], ["a.xlsx".data], BillAggregate.extend ⟨[], []⟩ witAgg⟩) ∧
    analyze_pending (fun _ => .ok witAgg)
        ⟨["a.xlsx".data], ["a.xlsx".data], BillAggregate.extend ⟨[], []⟩ witAgg⟩ =
      (.error "没有需要分析的账单".data,
       ⟨["a.xlsx".data], ["a.xlsx".data], BillAggregate.extend ⟨[], []⟩ witAgg⟩) ∧
    ("没有需要分析的账单".data : Str) ≠ "分析失败".data :=
  ingest_idempotent_single (fun _ => .ok witAgg) "a.xlsx".data ⟨[], []⟩ witAgg rfl

theorem mem_setInsert_self (p : Str) (s : List Str) : p ∈ setInsert p s := by
  unfold setInsert; split <;> simp [*]

theorem mem_setInsert_of_mem {x : Str} {s : List Str} (p : Str)
    (h : x ∈ s) : x ∈ setInsert p s := by
  unfold setInsert; split <;> simp [h]

theorem not_mem_setInsert {x p : Str} {s : List Str}
    (hxp : x ≠ p) (hxs : x ∉ s) : x ∉ setInsert p s := by
  unfold setInsert; split
  · exact hxs
  · simp [hxp, hxs]

theorem foldl_setInsert_mem {ps : List Str} {x : Str} :
    ∀ {s : List Str}, x ∈ ps ∨ x ∈ s →
      x ∈ ps.foldl (fun acc p => setInsert p acc) s := by
  induction ps with
  | nil => intro s h; simpa using h
  | cons p ps ih =>
    intro s h
    rcases h with h | h
    · rcases List.mem_cons.mp h with rfl | h
      · exact ih (Or.inr (mem_setInsert_self x s))
      · exact ih (Or.inl h)
    · exact ih (Or.inr (mem_setInsert_of_mem p h))

theorem foldl_extend_incomes (rep : Str → BillAggregate) :
    ∀ (ps : List Str) (A : BillAggregate),
      (ps.foldl (fun a p => a.extend (rep p)) A).incomes =
        A.incomes ++ (ps.map (fun p => (rep p).incomes)).flatten := by
  intro ps
  induction ps with
  | nil => intro A; simp
  | cons p ps ih =>
    intro A
    rw [List.foldl_cons, ih]
    simp [BillAggregate.extend]

theorem foldl_extend_expenses (rep : Str → BillAggregate) :
    ∀ (ps : List Str) (A : BillAggregate),
      (ps.foldl (fun a p => a.extend (rep p)) A).expenses =
        A.expenses ++ (ps.map (fun p => (rep p).expenses)).flatten := by
  intro ps
  induction ps with
  | nil => intro A; simp
  | cons p ps ih =>
    intro A
    rw [List.foldl_cons, ih]
    simp [BillAggregate.extend]

theorem analyzeLoop_prefix_error
    (analyze : Str → Except Str BillAggregate) (rep : Str → BillAggregate)
    (e : Str) :
    ∀ (ps : List Str) (q : Str) (qs : List Str) (st : BillState) (k : Nat),
      ps.Nodup →
      (∀ p ∈ ps, p ∉ st.processed ∧ analyze p = .ok (rep p)) →
      q ∉ st.processed → q ∉ ps → analyze q = .error e →
      analyzeLoop analyze (ps ++ q :: qs) st k =
        (.error "分析失败".data,
         { st with
           processed := ps.foldl (fun acc p => setInsert p acc) st.processed,
           aggregate := ps.foldl (fun a p => a.extend (rep p)) st.aggregate }) := by
  intro ps
  induction ps with
  | nil =>
    intro q qs st k _ _ hq _ he
    simp [analyzeLoop, hq, he]
  | cons p ps ih =>
    intro q qs st k hnd hok hq hqps he
    have hp := hok p (by simp)
    have hstep : analyzeLoop analyze ((p :: ps) ++ q :: qs) st k =
        analyzeLoop analyze (ps ++ q :: qs)
          { st with processed := setInsert p st.processed,
                    aggregate := st.aggregate.extend (rep p) } (k + 1) := by
      simp [analyzeLoop, hp.1, hp.2]
    have hps : ∀ x ∈ ps, x ∉ setInsert p st.processed ∧ analyze x = .ok (rep x) := by
      intro x hx
      refine ⟨?_, (hok x (by simp [hx])).2⟩
      exact not_mem_setInsert (fun hxp => (List.nodup_cons.mp hnd).1 (hxp ▸ hx))
        (hok x (by simp [hx])).1
    have hq2 : q ∉ setInsert p st.processed :=
      not_mem_setInsert (fun h => hqps (by simp [h])) hq
    rw [hstep, ih q qs _ (k + 1) hnd.of_cons hps hq2 (fun h => hqps (by simp [h])) he]
    simp [List.foldl_cons]

/-- C2: processing a catalog in order, the first parse failure makes the
whole ingest call return the parse error immediately, while every file
successfully processed before the failing one keeps its entries
appended to the aggregate (in catalog order) and its path present in
the processed set — partial progress is retained, not rolled back. -/
theorem ingest_partial_progress
    (analyze : Str → Except Str BillAggregate) (rep : Str → BillAggregate)
    (ps : List Str) (q : Str) (qs : List Str) (e : Str) (A : BillAggregate)
    (hnd : ps.Nodup) (hok : ∀ p ∈ ps, analyze p = .ok (rep p))
    (hqps : q ∉ ps) (he : analyze q = .error e) :
    (analyze_pending analyze ⟨ps ++ q :: qs, [], A⟩).1 = .error "分析失败".data ∧
    (analyze_pending analyze ⟨ps ++ q :: qs, [], A⟩).2.aggregate.incomes =
      A.incomes ++ (ps.map (fun p => (rep p).incomes)).flatten ∧
    (analyze_pending analyze ⟨ps ++ q :: qs, [], A⟩).2.aggregate.expenses =
      A.expenses ++ (ps.map (fun p => (rep p).expenses)).flatten ∧
    ∀ p ∈ ps, p ∈ (analyze_pending analyze ⟨ps ++ q :: qs, [], A⟩).2.processed := by
  have h := analyzeLoop_prefix_error analyze rep e ps q qs ⟨ps ++ q :: qs, [], A⟩ 0
    hnd (fun p hp => ⟨by simp, hok p hp⟩) (by simp) hqps he
  unfold analyze_pending
  rw [h]
  refine ⟨rfl, ?_, ?_, ?_⟩
  · exact foldl_extend_incomes rep ps A
  · exact foldl_extend_expenses rep ps A
  · intro p hp
    exact foldl_setInsert_mem (Or.inl hp)

/-- Witness for C2: a two-file catalog whose first file parses and
whose second fails. -/
theorem ingest_partial_progress_witness :
    (analyze_pending
        (fun p => if p = "a.xlsx".data then .ok witAgg else .error "x".data)
        ⟨["a.xlsx".data] ++ "b.csv".data :: [], [], ⟨[], []⟩⟩).1 =
      .error "分析失败".data ∧
    (analyze_pending
        (fun p => if p = "a.xlsx".data then .ok witAgg else .error "x".data)
        ⟨["a.xlsx".data] ++ "b.csv".data :: [], [], ⟨[], []⟩⟩).2.aggregate.incomes =
      [] ++ (["a.xlsx".data].map (fun _ => witAgg.incomes)).flatten ∧
    (analyze_pending
        (fun p => if p = "a.xlsx".data then .ok witAgg else .error "x".data)
        ⟨["a.xlsx".data] ++ "b.csv".data :: [], [], ⟨[], []⟩⟩).2.aggregate.expenses =
      [] ++ (["a.xlsx".data].map (fun _ => witAgg.expenses)).flatten ∧
    ∀ p ∈ ["a.xlsx".data],
      p ∈ (analyze_pending
        (fun p => if p = "a.xlsx".data then .ok witAgg else .error "x".data)
        ⟨["a.xlsx".data] ++ "b.csv".data :: [], [], ⟨[], []⟩⟩).2.processed :=
  ingest_partial_progress
    (fun p => if p = "a.xlsx".data then .ok witAgg else .error "x".data)
    (fun _ => witAgg) ["a.xlsx".data] "b.csv".data [] "x".data ⟨[], []⟩
    (by decide) (by intro p hp; simp at hp; subst hp; rfl)
    (by decide) (by decide)


theorem parse_amount_eq_parseDecimal {raw b : Str}
    (h : raw.filter (fun c => c.isDigit || c = '.' || c = '-') = b)
    (hne : b ≠ []) : parse_amount raw = parseDecimal b := by
  unfold parse_amount
  dsimp only
  rw [h, if_neg hne]

theorem parseDecimal_of_head_ne {s : Str} (h : s.head? ≠ some '-') :
    parseDecimal s = parseUnsigned s := by
  unfold parseDecimal
  rw [if_neg h]

theorem parseDecimal_neg (t : Str) :
    parseDecimal ('-' :: t) = (parseUnsigned t).map Neg.neg := by
  unfold parseDecimal
  rw [if_pos (by simp)]
  rfl

theorem parseUnsigned_frac_eq {s g f : Str}
    (h1 : s.takeWhile Char.isDigit = g)
    (h2 : s.dropWhile Char.isDigit = '.' :: f)
    (h3 : f.all Char.isDigit = true) (h4 : g ≠ [] ∨ f ≠ []) :
    parseUnsigned s = some ((digitsVal g : ℚ) + fracVal f) := by
  unfold parseUnsigned
  dsimp only
  rw [h1, h2]
  simp [h3, h4]

theorem fracVal_eq {l : Str} {v k : ℕ}
    (hv : digitsVal l = v) (hk : l.length = k) :
    fracVal l = (v : ℚ) / 10 ^ k := by
  unfold fracVal
  rw [hv, hk]

theorem parse_amount_1234_56 :
    parse_amount "¥1,234.56".data = some (1234.56 : ℚ) := by
  rw [parse_amount_eq_parseDecimal (b := "1234.56".data) (by decide) (by decide),
    parseDecimal_of_head_ne (by decide),
    parseUnsigned_frac_eq (g := "1234".data) (f := "56".data)
      (by decide) (by decide) (by decide) (by decide),
    fracVal_eq (v := 56) (k := 2) (by decide) (by decide),
    show digitsVal "1234".data = 1234 from by decide]
  norm_num

theorem parse_amount_12_50 :
    parse_amount "12.50".data = some (12.5 : ℚ) := by
  rw [parse_amount_eq_parseDecimal (b := "12.50".data) (by decide) (by decide),
    parseDecimal_of_head_ne (by decide),
    parseUnsigned_frac_eq (g := "12".data) (f := "50".data)
      (by decide) (by decide) (by decide) (by decide),
    fracVal_eq (v := 50) (k := 2) (by decide) (by decide),
    show digitsVal "12".data = 12 from by decide]
  norm_num

theorem parse_amount_neg_5_00 :
    parse_amount "-5.00".data = some (-5 : ℚ) := by
  rw [parse_amount_eq_parseDecimal (b := "-5.00".data) (by decide) (by decide),
    show ("-5.00".data : Str) = '-' :: "5.00".data from by decide,
    parseDecimal_neg,
    parseUnsigned_frac_eq (g := "5".data) (f := "00".data)
      (by decide) (by decide) (by decide) (by decide),
    fracVal_eq (v := 0) (k := 2) (by decide) (by decide),
    show digitsVal "5".data = 5 from by decide]
  norm_num

theorem cell_of_all_empty :
    ∀ (row : List DataType), row.all isEmptyCell = true →
      ∀ i, cell_to_string (row.getD i DataType.empty) = []
  | [], _, _ => by simp [cell_to_string]
  | c :: row, h, 0 => by
    simp only [List.all_cons, Bool.and_eq_true] at h
    cases c <;> simp_all [isEmptyCell, cell_to_string]
  | c :: row, h, (i + 1) => by
    simp only [List.all_cons, Bool.and_eq_true] at h
    simpa using cell_of_all_empty row h.2 i

/-- C8: a spreadsheet transaction row whose direction-marker cell
contains the expense ideograph and whose amount cell reads `¥1,234.56`
is appended to the expenses with amount 1234.56; the scrub retains only
digits, `.` and `-` from the amount text. -/
theorem wechat_expense_example
    (acc : List BillEntry × List BillEntry) (row : List DataType)
    (hcat : '支' ∈ cell_to_string (row.getD 4 DataType.empty))
    (hamt : cell_to_string (row.getD 5 DataType.empty) = "¥1,234.56".data) :
    wechatStep acc row =
      (acc.1 ++ [⟨cell_to_string (row.getD 2 DataType.empty),
                  cell_to_string (row.getD 3 DataType.empty), (1234.56 : ℚ)⟩],
       acc.2) ∧
    List.filter (fun c => c.isDigit || c = '.' || c = '-') "¥1,234.56".data =
      "1234.56".data ∧
    parse_amount "¥1,234.56".data = some (1234.56 : ℚ) := by
  refine ⟨?_, by decide, parse_amount_1234_56⟩
  have hall : row.all isEmptyCell = false := by
    cases hAE : row.all isEmptyCell
    · rfl
    · have h4 := cell_of_all_empty row hAE 4
      rw [h4] at hcat
      simp at hcat
  have hcatne : cell_to_string (row.getD 4 DataType.empty) ≠ [] := by
    intro h
    rw [h] at hcat
    simp at hcat
  unfold wechatStep
  rw [hall]
  simp only [Bool.false_eq_true, if_false]
  rw [hamt, if_neg (by simpa using hcatne), parse_amount_1234_56]
  simp only [hcat, if_true]

/-- Witness for C8 at a concrete spreadsheet row. -/
theorem wechat_expense_example_witness :
    wechatStep ([], [])
        [DataType.empty, DataType.empty, DataType.s "店".data,
         DataType.s "货".data, DataType.s "支出".data,
         DataType.s "¥1,234.56".data] =
      ([⟨cell_to_string ([DataType.empty, DataType.empty, DataType.s "店".data,
            DataType.s "货".data, DataType.s "支出".data,
            DataType.s "¥1,234.56".data].getD 2 DataType.empty),
         cell_to_string ([DataType.empty, DataType.empty, DataType.s "店".data,
            DataType.s "货".data, DataType.s "支出".data,
            DataType.s "¥1,234.56".data].getD 3 DataType.empty),
         (1234.56 : ℚ)⟩], []) ∧
    List.filter (fun c => c.isDigit || c = '.' || c = '-') "¥1,234.56".data =
      "1234.56".data ∧
    parse_amount "¥1,234.56".data = some (1234.56 : ℚ) :=
  wechat_expense_example ([], [])
    [DataType.empty, DataType.empty, DataType.s "店".data,
     DataType.s "货".data, DataType.s "支出".data,
     DataType.s "¥1,234.56".data]
    (by decide) (by decide)

/-- C9: in the CSV strategy every record with fewer than 7 fields is
skipped (it contributes nothing to the parse), and a 7-field record
with counterparty `Alice`, description `Coffee`, flow `支出` and amount
`12.50` becomes an expense entry with amount 12.50. -/
theorem alipay_csv_records :
    (∀ (acc : List BillEntry × List BillEntry) (record : List Str),
       record.length < 7 → alipayStep acc record = acc) ∧
    (∀ (rs₁ rs₂ : List (List Str)) (record : List Str), record.length < 7 →
       parse_alipay_records (rs₁ ++ record :: rs₂) =
         parse_alipay_records (rs₁ ++ rs₂)) ∧
    (∀ (acc : List BillEntry × List BillEntry) (record : List Str),
       record.length = 7 →
       record.getD 2 [] = "Alice".data → record.getD 4 [] = "Coffee".data →
       record.getD 5 [] = "支出".data → record.getD 6 [] = "12.50".data →
       alipayStep acc record =
         (acc.1 ++ [⟨"Alice".data, "Coffee".data, (12.5 : ℚ)⟩], acc.2)) := by
  have hskip : ∀ (acc : List BillEntry × List BillEntry) (record : List Str),
      record.length < 7 → alipayStep acc record = acc := by
    intro acc record h
    unfold alipayStep
    rw [if_pos h]
  refine ⟨hskip, ?_, ?_⟩
  · intro rs₁ rs₂ record h
    unfold parse_alipay_records
    rw [List.foldl_append, List.foldl_append, List.foldl_cons,
      hskip _ record h]
  · intro acc record hlen h2 h4 h5 h6
    have htrim : trim "12.50".data = "12.50".data := by decide
    unfold alipayStep
    rw [if_neg (by omega), h2, h4, h5, h6]
    rw [if_neg (by decide), htrim, parse_amount_12_50]
    have hflow : '支' ∈ trim "支出".data := by decide
    simp only [hflow, if_true]
    rw [show trim "Alice".data = "Alice".data from by decide,
      show trim "Coffee".data = "Coffee".data from by decide]

/-- Witness for C9 at a concrete record list. -/
theorem alipay_csv_records_witness :
    alipayStep ([], [])
        ["2024-01-01".data, "x".data, "Alice".data, [], "Coffee".data,
         "支出".data, "12.50".data] =
      ([⟨"Alice".data, "Coffee".data, (12.5 : ℚ)⟩], []) ∧
    alipayStep ([], []) ["a".data, "b".data] = ([], []) :=
  ⟨alipay_csv_records.2.2 ([], [])
      ["2024-01-01".data, "x".data, "Alice".data, [], "Coffee".data,
       "支出".data, "12.50".data]
      (by decide) (by decide) (by decide) (by decide) (by decide),
   alipay_csv_records.1 ([], []) ["a".data, "b".data] (by decide)⟩

/-- C10: in both format parsers the expense check takes precedence — a
transaction row whose direction marker contains both the expense
ideograph `支` and the income ideograph `收` (and whose amount parses)
is appended to the expenses and never to the incomes. -/
theorem expense_classification_precedence :
    (∀ (acc : List BillEntry × List BillEntry) (row : List DataType) (a : ℚ),
       '支' ∈ cell_to_string (row.getD 4 DataType.empty) →
       '收' ∈ cell_to_string (row.getD 4 DataType.empty) →
       parse_amount (cell_to_string (row.getD 5 DataType.empty)) = some a →
       wechatStep acc row =
         (acc.1 ++ [⟨cell_to_string (row.getD 2 DataType.empty),
                     cell_to_string (row.getD 3 DataType.empty), a⟩],
          acc.2)) ∧
    (∀ (acc : List BillEntry × List BillEntry) (record : List Str) (a : ℚ),
       ¬ record.length < 7 →
       '支' ∈ trim (record.getD 5 []) →
       '收' ∈ trim (record.getD 5 []) →
       parse_amount (trim (record.getD 6 [])) = some a →
       alipayStep acc record =
         (acc.1 ++ [⟨trim (record.getD 2 []), trim (record.getD 4 []), a⟩],
          acc.2)) := by
  constructor
  · intro acc row a hz hs hpa
    have hall : row.all isEmptyCell = false := by
      cases hAE : row.all isEmptyCell
      · rfl
      · have h4 := cell_of_all_empty row hAE 4
        rw [h4] at hz
        simp at hz
    have hcatne : cell_to_string (row.getD 4 DataType.empty) ≠ [] := by
      intro h
      rw [h] at hz
      simp at hz
    have hamtne : cell_to_string (row.getD 5 DataType.empty) ≠ [] :=
      parse_amount_ne_nil hpa
    unfold wechatStep
    rw [hall]
    simp only [Bool.false_eq_true, if_false]
    rw [if_neg (by push_neg; exact ⟨by simpa using hcatne, by simpa using hamtne⟩),
      hpa]
    simp only [hz, if_true]
  · intro acc record a hlen hz hs hpa
    have hflowne : trim (record.getD 5 []) ≠ [] := by
      intro h
      rw [h] at hz
      simp at hz
    have hamtne : trim (record.getD 6 []) ≠ [] := parse_amount_ne_nil hpa
    unfold alipayStep
    rw [if_neg hlen,
      if_neg (by push_neg; exact ⟨by simpa using hflowne, by simpa using hamtne⟩),
      hpa]
    simp only [hz, if_true]

/-- Witness for C10 at concrete rows whose marker is `支/收`. -/
theorem expense_classification_precedence_witness :
    wechatStep ([], [])
        [DataType.empty, DataType.empty, DataType.s "店".data,
         DataType.s "货".data, DataType.s "支/收".data,
         DataType.s "12.50".data] =
      ([⟨cell_to_string ([DataType.empty, DataType.empty, DataType.s "店".data,
            DataType.s "货".data, DataType.s "支/收".data,
            DataType.s "12.50".data].getD 2 DataType.empty),
         cell_to_string ([DataType.empty, DataType.empty, DataType.s "店".data,
            DataType.s "货".data, DataType.s "支/收".data,
            DataType.s "12.50".data].getD 3 DataType.empty), (12.5 : ℚ)⟩],
       []) ∧
    alipayStep ([], [])
        ["t".data, "x".data, "Alice".data, [], "Coffee".data,
         "支/收".data, "12.50".data] =
      ([⟨trim (["t".data, "x".data, "Alice".data, [], "Coffee".data,
          "支/收".data, "12.50".data].getD 2 []),
         trim (["t".data, "x".data, "Alice".data, [], "Coffee".data,
          "支/收".data, "12.50".data].getD 4 []), (12.5 : ℚ)⟩], []) :=
  ⟨expense_classification_precedence.1 ([], [])
      [DataType.empty, DataType.empty, DataType.s "店".data,
       DataType.s "货".data, DataType.s "支/收".data,
       DataType.s "12.50".data] (12.5 : ℚ)
      (by decide) (by decide)
      (by rw [show cell_to_string
          ([DataType.empty, DataType.empty, DataType.s "店".data,
            DataType.s "货".data, DataType.s "支/收".data,
            DataType.s "12.50".data].getD 5 DataType.empty) = "12.50".data
          from by decide]; exact parse_amount_12_50),
   expense_classification_precedence.2 ([], [])
      ["t".data, "x".data, "Alice".data, [], "Coffee".data,
       "支/收".data, "12.50".data] (12.5 : ℚ)
      (by decide) (by decide) (by decide)
      (by rw [show trim (["t".data, "x".data, "Alice".data, [], "Coffee".data,
          "支/收".data, "12.50".data].getD 6 []) = "12.50".data
          from by decide]; exact parse_amount_12_50)⟩

theorem wechatStep_expense {acc : List BillEntry × List BillEntry}
    {row : List DataType} {a : ℚ}
    (hz : '支' ∈ cell_to_string (row.getD 4 DataType.empty))
    (hpa : parse_amount (cell_to_string (row.getD 5 DataType.empty)) = some a) :
    wechatStep acc row =
      (acc.1 ++ [⟨cell_to_string (row.getD 2 DataType.empty),
                  cell_to_string (row.getD 3 DataType.empty), a⟩], acc.2) := by
  have hall : row.all isEmptyCell = false := by
    cases hAE : row.all isEmptyCell
    · rfl
    · have h4 := cell_of_all_empty row hAE 4
      rw [h4] at hz
      simp at hz
  have hcatne : cell_to_string (row.getD 4 DataType.empty) ≠ [] := by
    intro h
    rw [h] at hz
    simp at hz
  have hamtne : cell_to_string (row.getD 5 DataType.empty) ≠ [] :=
    parse_amount_ne_nil hpa
  unfold wechatStep
  rw [hall]
  simp only [Bool.false_eq_true, if_false]
  rw [if_neg (by push_neg; exact ⟨by simpa using hcatne, by simpa using hamtne⟩),
    hpa]
  simp only [hz, if_true]

theorem parse_wechat_demoNeg :
    parse_wechat_bill demoRangeNeg =
      .ok ⟨[], [⟨"甲".data, "乙".data, (-5 : ℚ)⟩]⟩ := by
  unfold parse_wechat_bill
  rw [show findHeaderIdx demoRangeNeg = some 0 from by decide]
  dsimp only
  rw [show demoRangeNeg.drop 1 =
      [[DataType.empty, DataType.empty, DataType.s "甲".data,
        DataType.s "乙".data, DataType.s "支出".data,
        DataType.s "-5.00".data]] from by decide,
    List.foldl_cons, List.foldl_nil,
    wechatStep_expense (a := (-5 : ℚ)) (by decide)
      (by rw [show cell_to_string
          ([DataType.empty, DataType.empty, DataType.s "甲".data,
            DataType.s "乙".data, DataType.s "支出".data,
            DataType.s "-5.00".data].getD 5 DataType.empty) = "-5.00".data
          from by decide]; exact parse_amount_neg_5_00)]
  rfl

theorem parse_wechat_demoPos :
    parse_wechat_bill demoRangePos =
      .ok ⟨[], [⟨"店".data, "货".data, (12.5 : ℚ)⟩]⟩ := by
  unfold parse_wechat_bill
  rw [show findHeaderIdx demoRangePos = some 0 from by decide]
  dsimp only
  rw [show demoRangePos.drop 1 =
      [[DataType.empty, DataType.empty, DataType.s "店".data,
        DataType.s "货".data, DataType.s "支出".data,
        DataType.s "12.50".data]] from by decide,
    List.foldl_cons, List.foldl_nil,
    wechatStep_expense (a := (12.5 : ℚ)) (by decide)
      (by rw [show cell_to_string
          ([DataType.empty, DataType.empty, DataType.s "店".data,
            DataType.s "货".data, DataType.s "支出".data,
            DataType.s "12.50".data].getD 5 DataType.empty) = "12.50".data
          from by decide]; exact parse_amount_12_50)]
  rfl

/-- C3 counterexample: the spreadsheet parser produces a `LedgerEntry`
with the negative amount `-5` from an amount cell reading `-5.00`,
since the scrub deliberately retains `-`; so not every parser-produced
entry has a non-negative amount. -/
theorem negative_amount_counterexample :
    parse_wechat_bill demoRangeNeg =
      .ok ⟨[], [⟨"甲".data, "乙".data, (-5 : ℚ)⟩]⟩ ∧
    ((-5 : ℚ) < 0) :=
  ⟨parse_wechat_demoNeg, by norm_num⟩

theorem mem_of_mem_dropWhile {p : Char → Bool} {c : Char} :
    ∀ {s : Str}, c ∈ s.dropWhile p → c ∈ s := by
  intro s
  induction s with
  | nil => simp
  | cons a t ih =>
    intro h
    rw [List.dropWhile_cons] at h
    split at h
    · exact List.mem_cons_of_mem a (ih h)
    · exact h

theorem mem_of_mem_trim {c : Char} {s : Str} (h : c ∈ trim s) : c ∈ s := by
  unfold trim trimR trimL at h
  rw [List.mem_reverse] at h
  have h2 := mem_of_mem_dropWhile h
  rw [List.mem_reverse] at h2
  exact mem_of_mem_dropWhile h2

theorem wechatStep_preserves_nonneg {acc : List BillEntry × List BillEntry}
    {row : List DataType}
    (hrow : '-' ∉ cell_to_string (row.getD 5 DataType.empty))
    (h1 : ∀ e ∈ acc.1, 0 ≤ e.amount) (h2 : ∀ e ∈ acc.2, 0 ≤ e.amount) :
    (∀ e ∈ (wechatStep acc row).1, 0 ≤ e.amount) ∧
    (∀ e ∈ (wechatStep acc row).2, 0 ≤ e.amount) := by
  unfold wechatStep
  split
  · exact ⟨h1, h2⟩
  · dsimp only
    split
    · exact ⟨h1, h2⟩
    · split
      · exact ⟨h1, h2⟩
      · rename_i a hpa
        have ha : 0 ≤ a := parse_amount_nonneg hrow hpa
        split
        · refine ⟨?_, h2⟩
          intro e he
          rcases List.mem_append.mp he with he | he
          · exact h1 e he
          · rcases List.mem_singleton.mp he with rfl
            exact ha
        · split
          · refine ⟨h1, ?_⟩
            intro e he
            rcases List.mem_append.mp he with he | he
            · exact h2 e he
            · rcases List.mem_singleton.mp he with rfl
              exact ha
          · exact ⟨h1, h2⟩

theorem alipayStep_preserves_nonneg {acc : List BillEntry × List BillEntry}
    {record : List Str}
    (hrow : '-' ∉ record.getD 6 [])
    (h1 : ∀ e ∈ acc.1, 0 ≤ e.amount) (h2 : ∀ e ∈ acc.2, 0 ≤ e.amount) :
    (∀ e ∈ (alipayStep acc record).1, 0 ≤ e.amount) ∧
    (∀ e ∈ (alipayStep acc record).2, 0 ≤ e.amount) := by
  have hrow2 : '-' ∉ trim (record.getD 6 []) :=
    fun h => hrow (mem_of_mem_trim h)
  unfold alipayStep
  split
  · exact ⟨h1, h2⟩
  · dsimp only
    split
    · exact ⟨h1, h2⟩
    · split
      · exact ⟨h1, h2⟩
      · rename_i a hpa
        have ha : 0 ≤ a := parse_amount_nonneg hrow2 hpa
        split
        · refine ⟨?_, h2⟩
          intro e he
          rcases List.mem_append.mp he with he | he
          · exact h1 e he
          · rcases List.mem_singleton.mp he with rfl
            exact ha
        · split
          · refine ⟨h1, ?_⟩
            intro e he
            rcases List.mem_append.mp he with he | he
            · exact h2 e he
            · rcases List.mem_singleton.mp he with rfl
              exact ha
          · exact ⟨h1, h2⟩

theorem wechat_foldl_nonneg :
    ∀ (rows : List (List DataType)) (acc : List BillEntry × List BillEntry),
      (∀ row ∈ rows, '-' ∉ cell_to_string (row.getD 5 DataType.empty)) →
      (∀ e ∈ acc.1, 0 ≤ e.amount) → (∀ e ∈ acc.2, 0 ≤ e.amount) →
      (∀ e ∈ (rows.foldl wechatStep acc).1, 0 ≤ e.amount) ∧
      (∀ e ∈ (rows.foldl wechatStep acc).2, 0 ≤ e.amount) := by
  intro rows
  induction rows with
  | nil => intro acc _ h1 h2; exact ⟨h1, h2⟩
  | cons row rows ih =>
    intro acc hr h1 h2
    rw [List.foldl_cons]
    have hstep := wechatStep_preserves_nonneg (hr row (by simp)) h1 h2
    exact ih _ (fun r hr2 => hr r (by simp [hr2])) hstep.1 hstep.2

theorem alipay_foldl_nonneg :
    ∀ (records : List (List Str)) (acc : List BillEntry × List BillEntry),
      (∀ r ∈ records, '-' ∉ r.getD 6 []) →
      (∀ e ∈ acc.1, 0 ≤ e.amount) → (∀ e ∈ acc.2, 0 ≤ e.amount) →
      (∀ e ∈ (records.foldl alipayStep acc).1, 0 ≤ e.amount) ∧
      (∀ e ∈ (records.foldl alipayStep acc).2, 0 ≤ e.amount) := by
  intro records
  induction records with
  | nil => intro acc _ h1 h2; exact ⟨h1, h2⟩
  | cons r rs ih =>
    intro acc hr h1 h2
    rw [List.foldl_cons]
    have hstep := alipayStep_preserves_nonneg (hr r (by simp)) h1 h2
    exact ih _ (fun x hx => hr x (by simp [hx])) hstep.1 hstep.2

/-- C3 amended: a `LedgerEntry` produced by either format parser has a
non-negative amount whenever the raw amount cell text contains no `-`
character; amounts whose text carries a leading `-` are parsed with
their negative sign retained (see the counterexample). -/
theorem ledger_amount_nonneg_amended :
    (∀ (range : List (List DataType)) (agg : BillAggregate),
       (∀ row ∈ range, '-' ∉ cell_to_string (row.getD 5 DataType.empty)) →
       parse_wechat_bill range = .ok agg →
       (∀ e ∈ agg.expenses, 0 ≤ e.amount) ∧
       (∀ e ∈ agg.incomes, 0 ≤ e.amount)) ∧
    (∀ (records : List (List Str)),
       (∀ r ∈ records, '-' ∉ r.getD 6 []) →
       (∀ e ∈ (parse_alipay_records records).expenses, 0 ≤ e.amount) ∧
       (∀ e ∈ (parse_alipay_records records).incomes, 0 ≤ e.amount)) := by
  constructor
  · intro range agg hr hok
    unfold parse_wechat_bill at hok
    cases hidx : findHeaderIdx range with
    | none => rw [hidx] at hok; exact absurd hok (by simp)
    | some idx =>
      rw [hidx] at hok
      dsimp only at hok
      obtain ⟨rfl⟩ := Except.ok.inj hok
      have hfold := wechat_foldl_nonneg (range.drop (idx + 1)) ([], [])
        (fun row hrow => hr row (List.mem_of_mem_drop hrow))
        (by simp) (by simp)
      exact ⟨hfold.1, hfold.2⟩
  · intro records hr
    unfold parse_alipay_records
    have hfold := alipay_foldl_nonneg records ([], []) hr (by simp) (by simp)
    exact ⟨hfold.1, hfold.2⟩

/-- Witness for the amended C3: the minus-free demo range yields only
non-negative amounts. -/
theorem ledger_amount_nonneg_amended_witness :
    0 ≤ (BillEntry.mk "店".data "货".data (12.5 : ℚ)).amount :=
  (ledger_amount_nonneg_amended.1 demoRangePos
      ⟨[], [⟨"店".data, "货".data, (12.5 : ℚ)⟩]⟩
      (by decide) parse_wechat_demoPos).1
    ⟨"店".data, "货".data, (12.5 : ℚ)⟩ (by simp)

theorem ratFloorNat_eq {q : ℚ} {n : ℕ}
    (h1 : (n : ℚ) ≤ q) (h2 : q < n + 1) : ratFloorNat q = n := by
  have h0 : 0 ≤ q := le_trans (by positivity) h1
  have hfl : ⌊q⌋ = (n : ℤ) := by
    rw [Int.floor_eq_iff]
    exact ⟨by exact_mod_cast h1, by push_cast; exact h2⟩
  have hnum : 0 ≤ q.num := Rat.num_nonneg.mpr h0
  have hdiv : ratFloorNat q = (⌊q⌋).toNat := by
    unfold ratFloorNat
    rw [Rat.floor_def]
    conv_rhs => rw [← Int.toNat_of_nonneg hnum]
    rw [show ((q.num.toNat : ℤ) / (q.den : ℤ)) = ((q.num.toNat / q.den : ℕ) : ℤ)
      from rfl]
    exact (Int.toNat_natCast _).symm
  rw [hdiv, hfl]
  simp

theorem fmt2_of_bounds {q : ℚ} {n : ℕ} (h0 : 0 ≤ q)
    (h1 : (n : ℚ) ≤ q * 100 + 1 / 2) (h2 : q * 100 + 1 / 2 < n + 1) :
    fmt2 q = natStr (n / 100) ++ '.' ::
      (if n % 100 < 10 then ['0'] else []) ++ natStr (n % 100) := by
  unfold fmt2
  dsimp only
  rw [if_neg (not_lt.mpr h0), abs_of_nonneg h0, ratFloorNat_eq h1 h2]
  simp

theorem fmt2_30 : fmt2 (30 : ℚ) = "30.00".data := by
  rw [fmt2_of_bounds (n := 3000) (by norm_num) (by norm_num) (by norm_num)]
  decide

/-- C7: export writes zero files and does not create the target
directory when the aggregate is empty; otherwise it writes exactly one
markdown document that ends in a net line labelled `净收入` (net
income) when the net is non-negative and `净支出` (net expense) when it
is negative, showing the absolute net formatted to two decimals. -/
theorem export_net_line (st : BillState) :
    (st.aggregate.is_empty = true → export_reports st = (0, false, none)) ∧
    (st.aggregate.is_empty = false →
       export_reports st = (1, true, some st.aggregate.to_markdown) ∧
       mdNetLine st.aggregate <:+ st.aggregate.to_markdown ∧
       mdNetLine st.aggregate =
         (if 0 ≤ st.aggregate.net then "净收入".data else "净支出".data) ++
           "：".data ++ fmt2 |st.aggregate.net| ++ " 元\n".data) := by
  constructor
  · intro h
    unfold export_reports
    rw [h]
    rfl
  · intro h
    refine ⟨?_, ?_, rfl⟩
    · unfold export_reports
      rw [h]
      rfl
    · unfold BillAggregate.to_markdown
      exact List.suffix_append _ _

/-- Witness for C7: exporting an aggregate with one income entry of
50.00 and one expense entry of 20.00 yields one document whose net
line reads `净收入：30.00 元`. -/
theorem export_net_line_witness :
    export_reports stEx = (1, true, some stEx.aggregate.to_markdown) ∧
    "净收入：30.00 元\n".data <:+ stEx.aggregate.to_markdown := by
  have h := (export_net_line stEx).2 (by decide)
  refine ⟨h.1, ?_⟩
  have hnet : stEx.aggregate.net = 30 := by
    unfold stEx witAgg BillAggregate.net BillAggregate.total_income
      BillAggregate.total_expense
    norm_num
  have hline : mdNetLine stEx.aggregate = "净收入：30.00 元\n".data := by
    unfold mdNetLine
    rw [hnet, if_pos (by norm_num), abs_of_nonneg (by norm_num : (0:ℚ) ≤ 30),
      fmt2_30]
    decide
  rw [← hline]
  exact h.2.1

theorem edit_table_fail {nv : Bool} {loader : Except Unit Str}
    (h : nv = false ∨ loader = .error ()) : edit_table nv loader = ([], 0) := by
  unfold edit_table
  rcases h with rfl | rfl
  · rw [if_neg (by simp)]
  · cases nv
    · rw [if_neg (by simp)]
    · rw [if_pos rfl]
      rfl

/-- C5 counterexample: with the table reload failing after a
successful external edit, the state machine stays in `TodoView` (with
the rows cleared) — it does not navigate back to `MainMenu` as the
claim states. -/
theorem edit_fail_navigation_counterexample :
    (step env0 KeyCode.charE app0).map App.state = some AppState.TodoView ∧
    AppState.TodoView ≠ AppState.MainMenu :=
  ⟨rfl, by decide⟩

/-- C5 amended: when the external edit or the subsequent reload fails,
the state machine remains in the current table view with the rows
cleared and scroll reset to 0 (no navigation to `MainMenu`); a failed
catalog refresh in the bill view likewise changes nothing but the
transient status text and the redraw flag. -/
theorem edit_fail_clears_rows (env : Env) (app : App) :
    (app.state = AppState.TodoView →
       (env.nvim_ok = false ∨ env.read_todo = .error ()) →
       step env KeyCode.charE app =
         some { app with todo := [], todo_scroll := 0, force_redraw := true } ∧
       (step env KeyCode.charE app).map App.state = some app.state) ∧
    (app.state = AppState.CyberView →
       (env.nvim_ok = false ∨ env.read_cyber = .error ()) →
       step env KeyCode.charE app =
         some { app with cyber := [], cyber_scroll := 0, force_redraw := true } ∧
       (step env KeyCode.charE app).map App.state = some app.state) ∧
    (∀ e, app.state = AppState.BillView → env.refresh_files = .error e →
       step env KeyCode.charR app =
         some { app with
           last_msg := some ("刷新失败: ".data ++ e),
           force_redraw := true } ∧
       (step env KeyCode.charR app).map App.state = some app.state) := by
  refine ⟨?_, ?_, ?_⟩
  · intro hs hf
    have h1 : step env KeyCode.charE app =
        some { app with todo := [], todo_scroll := 0, force_redraw := true } := by
      unfold step
      rw [hs]
      dsimp only
      rw [edit_table_fail hf]
    exact ⟨h1, by rw [h1, hs]; rfl⟩
  · intro hs hf
    have h1 : step env KeyCode.charE app =
        some { app with cyber := [], cyber_scroll := 0, force_redraw := true } := by
      unfold step
      rw [hs]
      dsimp only
      rw [edit_table_fail hf]
    exact ⟨h1, by rw [h1, hs]; rfl⟩
  · intro e hs hf
    have h1 : step env KeyCode.charR app =
        some { app with
          last_msg := some ("刷新失败: ".data ++ e),
          force_redraw := true } := by
      unfold step
      rw [hs]
      dsimp only
      unfold refresh_files
      rw [hf]
    exact ⟨h1, by rw [h1, hs]; rfl⟩

/-- Witness for the amended C5 at the concrete failing environment. -/
theorem edit_fail_clears_rows_witness :
    step env0 KeyCode.charE app0 =
      some { app0 with todo := [], todo_scroll := 0, force_redraw := true } :=
  ((edit_fail_clears_rows env0 app0).1 rfl (Or.inr rfl)).1

theorem splitOnChar_nil (sep : Char) : splitOnChar sep [] = [[]] := rfl

theorem splitOnChar_cons_self (sep : Char) (ys : Str) :
    splitOnChar sep (sep :: ys) = [] :: splitOnChar sep ys := by
  simp [splitOnChar]

theorem splitOnChar_append_no_sep {sep : Char} {h : Str} {t : List Str} :
    ∀ {xs ys : Str}, sep ∉ xs → splitOnChar sep ys = h :: t →
      splitOnChar sep (xs ++ ys) = (xs ++ h) :: t := by
  intro xs
  induction xs with
  | nil => intro ys _ hys; simpa using hys
  | cons c cs ih =>
    intro ys hx hys
    have hc : ¬ c = sep := fun hcs => hx (by simp [hcs])
    have hcs : sep ∉ cs := fun hm => hx (by simp [hm])
    rw [List.cons_append]
    simp only [splitOnChar]
    rw [ih hcs hys, if_neg hc]
    rfl

theorem splitOnChar_joinSep {sep : Char} :
    ∀ {parts : List Str}, parts ≠ [] → (∀ p ∈ parts, sep ∉ p) →
      splitOnChar sep (joinSep sep parts) = parts := by
  intro parts
  induction parts with
  | nil => intro h; exact absurd rfl h
  | cons p ps ih =>
    intro _ hs
    cases ps with
    | nil =>
      show splitOnChar sep (joinSep sep [p]) = [p]
      unfold joinSep
      rw [show p = p ++ [] from (List.append_nil p).symm]
      rw [splitOnChar_append_no_sep (h := []) (t := [])
        (by simpa using hs p (by simp)) (splitOnChar_nil sep)]
    | cons p2 ps2 =>
      show splitOnChar sep (joinSep sep (p :: p2 :: ps2)) = p :: p2 :: ps2
      unfold joinSep
      rw [splitOnChar_append_no_sep (h := []) (t := p2 :: ps2) (hs p (by simp))
        (by rw [splitOnChar_cons_self,
          ih (by simp) (fun x hx => hs x (by simp [hx]))])]
      simp

theorem splitOnChar_joinSep_concat {sep : Char} :
    ∀ {parts : List Str}, parts ≠ [] → (∀ p ∈ parts, sep ∉ p) →
      splitOnChar sep (joinSep sep parts ++ [sep]) = parts ++ [[]] := by
  intro parts
  induction parts with
  | nil => intro h; exact absurd rfl h
  | cons p ps ih =>
    intro _ hs
    cases ps with
    | nil =>
      show splitOnChar sep (joinSep sep [p] ++ [sep]) = [p] ++ [[]]
      unfold joinSep
      rw [splitOnChar_append_no_sep (h := []) (t := [[]]) (hs p (by simp))
        (by rw [splitOnChar_cons_self, splitOnChar_nil])]
      simp
    | cons p2 ps2 =>
      show splitOnChar sep (joinSep sep (p :: p2 :: ps2) ++ [sep]) =
        (p :: p2 :: ps2) ++ [[]]
      unfold joinSep
      rw [List.cons_append, List.append_assoc, List.cons_append]
      rw [splitOnChar_append_no_sep (h := []) (t := (p2 :: ps2) ++ [[]])
        (hs p (by simp))
        (by rw [splitOnChar_cons_self,
          ih (by simp) (fun x hx => hs x (by simp [hx]))])]
      simp

theorem trim_mkLine (row : List Str) : trim (mkLine row) = mkLine row := by
  have h1 : trimL (mkLine row) = mkLine row := by
    unfold mkLine trimL
    rw [List.dropWhile_cons, if_neg (by decide)]
  have h2 : trimR (mkLine row) = mkLine row := by
    unfold trimR
    have hrev : (mkLine row).reverse = '|' :: ('|' :: joinSep '|' row).reverse := by
      unfold mkLine
      rw [show ('|' :: (joinSep '|' row ++ ['|'])) =
          (('|' :: joinSep '|' row) ++ ['|']) from rfl,
        List.reverse_append]
      rfl
    rw [hrev, List.dropWhile_cons, if_neg (by decide), ← hrev,
      List.reverse_reverse]
  unfold trim
  rw [h1, h2]

theorem mkLine_getLast (row : List Str) :
    (mkLine row).getLast? = some '|' := by
  rw [show mkLine row = ('|' :: joinSep '|' row) ++ ['|'] from rfl]
  exact List.getLast?_concat _

theorem mem_joinSep {c sep : Char} :
    ∀ {parts : List Str}, c ∈ joinSep sep parts →
      c = sep ∨ ∃ p ∈ parts, c ∈ p := by
  intro parts
  induction parts with
  | nil => intro h; simp [joinSep] at h
  | cons p ps ih =>
    intro h
    cases ps with
    | nil =>
      refine Or.inr ⟨p, by simp, ?_⟩
      simpa [joinSep] using h
    | cons p2 ps2 =>
      unfold joinSep at h
      rcases List.mem_append.mp h with h | h
      · exact Or.inr ⟨p, by simp, h⟩
      · rcases List.mem_cons.mp h with h | h
        · exact Or.inl h
        · rcases ih h with h | ⟨x, hx, hcx⟩
          · exact Or.inl h
          · exact Or.inr ⟨x, by simp [hx], hcx⟩

theorem splitOnChar_mkLine (row : List Str) (hrow : row ≠ [])
    (hp : ∀ cell ∈ row, '|' ∉ cell) :
    splitOnChar '|' (mkLine row) = [] :: (row ++ [[]]) := by
  unfold mkLine
  rw [splitOnChar_cons_self]
  rw [splitOnChar_joinSep_concat hrow hp]

theorem tableLine_mkLine (row : List Str) (N : Nat)
    (hN : N ≤ row.length)
    (hcell : ∀ cell ∈ row, '|' ∉ cell ∧ trim cell ≠ []) :
    tableLine N (mkLine row) = some (row.map trim) := by
  cases row with
  | nil =>
    have hN0 : N = 0 := Nat.le_zero.mp hN
    subst hN0
    decide
  | cons p ps =>
    unfold tableLine
    rw [trim_mkLine]
    rw [if_pos ⟨rfl, mkLine_getLast _⟩]
    dsimp only
    rw [splitOnChar_mkLine _ (by simp) (fun c hc => (hcell c hc).1)]
    rw [List.map_cons, List.map_append]
    rw [List.filter_cons,
      if_neg (show ¬(decide (trim ([] : Str) ≠ []) = true) from by decide)]
    rw [List.filter_append]
    rw [List.filter_eq_self.mpr ?hall]
    case hall =>
      intro a ha
      rcases List.mem_map.mp ha with ⟨cell, hcm, rfl⟩
      simpa using (hcell cell hcm).2
    rw [show List.filter (fun s => decide (s ≠ [])) (List.map trim [[]]) = []
      from by decide]
    rw [List.append_nil]
    rw [if_pos (by rw [List.length_map]; exact hN)]

theorem joinSep_ne_nil {sep : Char} {l : Str} {ls : List Str} (h : l ≠ []) :
    joinSep sep (l :: ls) ≠ [] := by
  cases ls <;> simp [joinSep, h]

theorem rustLines_joinSep (lines : List Str)
    (hne : ∀ l ∈ lines, l ≠ []) (hn : ∀ l ∈ lines, '\n' ∉ l)
    (hr : ∀ l ∈ lines, l.getLast? ≠ some '\r') :
    rustLines (joinSep '\n' lines) = lines := by
  cases lines with
  | nil => rfl
  | cons l ls =>
    unfold rustLines
    rw [if_neg (joinSep_ne_nil (hne l (by simp)))]
    dsimp only
    rw [splitOnChar_joinSep (by simp) hn]
    rw [if_neg ?hlast]
    case hlast =>
      intro hsome
      exact hne _ (List.mem_of_mem_getLast? hsome) rfl
    rw [List.map_congr_left (fun x hx => if_neg (hr x hx))]
    exact List.map_id _

theorem filterMap_tableLine (N : Nat) :
    ∀ (rows : List (List Str)),
      (∀ row ∈ rows, N ≤ row.length) →
      (∀ row ∈ rows, ∀ cell ∈ row, '|' ∉ cell ∧ trim cell ≠ []) →
      (rows.map mkLine).filterMap (tableLine N) = rows.map (List.map trim) := by
  intro rows
  induction rows with
  | nil => intro _ _; rfl
  | cons row rows ih =>
    intro hlen hcell
    rw [List.map_cons, List.filterMap_cons,
      tableLine_mkLine row N (hlen row (by simp)) (hcell row (by simp))]
    rw [ih (fun r hr => hlen r (by simp [hr]))
      (fun r hr => hcell r (by simp [hr]))]
    rfl

/-- C4 amended (round trip): for text composed only of pipe-delimited
lines whose cells contain no pipes or newlines and are non-empty after
trimming, with at least `N` cells per line, `parse_table` returns
exactly the trimmed original cells, in original order, with cell count
at least `N`.  (The parser drops every cell that is empty after
trimming, including interior ones — see the counterexample.) -/
theorem table_roundtrip (rows : List (List Str)) (N : Nat)
    (hlen : ∀ row ∈ rows, N ≤ row.length)
    (hcell : ∀ row ∈ rows, ∀ cell ∈ row,
      '|' ∉ cell ∧ '\n' ∉ cell ∧ trim cell ≠ []) :
    parse_table (joinSep '\n' (rows.map mkLine)) N =
      rows.map (List.map trim) ∧
    ∀ r ∈ rows.map (List.map trim), N ≤ r.length := by
  constructor
  · unfold parse_table
    rw [rustLines_joinSep (rows.map mkLine) ?hne ?hn ?hr]
    case hne =>
      intro l hl
      rcases List.mem_map.mp hl with ⟨row, _, rfl⟩
      simp [mkLine]
    case hn =>
      intro l hl
      rcases List.mem_map.mp hl with ⟨row, hrm, rfl⟩
      intro hmem
      rcases List.mem_cons.mp hmem with h | h
      · exact absurd h (by decide)
      · rcases List.mem_append.mp h with h | h
        · rcases mem_joinSep h with h | ⟨cell, hcm, hcc⟩
          · exact absurd h (by decide)
          · exact (hcell row hrm cell hcm).2.1 hcc
        · exact absurd h (by decide)
    case hr =>
      intro l hl
      rcases List.mem_map.mp hl with ⟨row, _, rfl⟩
      rw [mkLine_getLast]
      decide
    exact filterMap_tableLine N rows hlen
      (fun row hr cell hc =>
        ⟨(hcell row hr cell hc).1, (hcell row hr cell hc).2.2⟩)
  · intro r hr
    rcases List.mem_map.mp hr with ⟨row, hrm, rfl⟩
    rw [List.length_map]
    exact hlen row hrm

/-- C4 counterexample: `parse_table` drops the interior empty cell of
`|a||b|`, so only 2 cells remain and the row is rejected at
`min_columns = 3`; discarding only the leading/trailing delimiter
empties (as the claim states, modelled by `parse_table_spec`) would
keep the 3-cell row. -/
theorem table_interior_empty_counterexample :
    parse_table "|a||b|".data 3 = [] ∧
    parse_table_spec "|a||b|".data 3 = [["a".data, [], "b".data]] ∧
    parse_table "|a||b|".data 3 ≠ parse_table_spec "|a||b|".data 3 := by
  refine ⟨by decide, by decide, by decide⟩

/-- Witness for the amended C4 at a concrete two-row table. -/
theorem table_roundtrip_witness :
    parse_table (joinSep '\n' ([[" a ".data, "b".data],
      ["c".data, "d ".data]].map mkLine)) 2 =
      [[" a ".data, "b".data], ["c".data, "d ".data]].map (List.map trim) ∧
    ∀ r ∈ [[" a ".data, "b".data], ["c".data, "d ".data]].map (List.map trim),
      2 ≤ r.length :=
  table_roundtrip [[" a ".data, "b".data], ["c".data, "d ".data]] 2
    (by decide) (by decide)
